import Mathlib

/-!
Verification of the MDP-estimation and planning core of an RL agent that
plays a side-scrolling obstacle-avoidance game (src/agent.py).  The Python
source is shallowly embedded: numpy float arrays become functions into ℚ,
dictionaries become structures, and exceptions (a `KeyError` on an
unrecognized obstacle type) become `Option`.  Machine floating point is
modelled by exact rational arithmetic.
-/

namespace DinoAgent

/-- `OBSTACLE_TYPES` dictionary (src/agent.py line 11); lookup of a key that
is not present raises a `KeyError` in Python, which we model as `none`. -/
def OBSTACLE_TYPES (t : String) : Option ℕ :=
  if t = "CACTUS_SMALL" then some 0
  else if t = "CACTUS_LARGE" then some 1
  else if t = "PTERODACTYL" then some 2
  else none

/-- `MAX_CONSECUTIVE_OBS` (line 12). -/
def MAX_CONSECUTIVE_OBS : ℕ := 3

/-- `PTERODACTYL_HEIGHTS` (line 13), cast to float by
`initialize_mdp_data`; we carry them as rationals. -/
def PTERODACTYL_HEIGHTS : List ℚ := [50, 75, 100]

/-- A present observation from the environment: the `state` dict with keys
`type`, `config` and `dx`.  An absent observation (`not state` in Python)
is `none` at use sites (`Option DinoState`). -/
structure DinoState where
  type : String
  config : ℚ
  dx : ℚ
deriving DecidableEq

/-- `np.linspace lo hi n`: `n` evenly spaced points from `lo` to `hi`
inclusive (for `n = 1` numpy returns `[lo]`, for `n = 0` the empty array). -/
def linspace (lo hi : ℚ) (n : ℕ) : List ℚ :=
  if n ≤ 1 then List.replicate n lo
  else (List.range n).map (fun i : ℕ => lo + (hi - lo) * (i : ℚ) / ((n : ℚ) - 1))

/-- `np.argmin (abs (xs - x))`: index of the first element of `xs` at
minimal absolute distance from `x` (numpy's `argmin` returns the first
occurrence of the minimum). -/
def argminAbs (x : ℚ) : List ℚ → ℕ
  | [] => 0
  | [_] => 0
  | a :: b :: rest =>
      let j := argminAbs x (b :: rest)
      if |(b :: rest).getD j 0 - x| < |a - x| then j + 1 else 0

/-- `num_states` as computed by `initialize_mdp_data` (line 168):
`((len(OBSTACLE_TYPES)-1)*MAX_CONSECUTIVE_OBS + 1*len(PTERODACTYL_HEIGHTS))*n_x + 2`. -/
def num_states (n_x : ℕ) : ℕ :=
  ((3 - 1) * MAX_CONSECUTIVE_OBS + 1 * PTERODACTYL_HEIGHTS.length) * n_x + 2

/-- The cactus bucket grid `dn_cactus_s = range(1, MAX_CONSECUTIVE_OBS+1)`
(line 172). -/
def dn_cactus_s : List ℚ := [1, 2, 3]

/-- The distance bucket grid `dx_s = np.linspace(0, max_dx, n_x)` (line 171). -/
def dx_grid (n_x : ℕ) (max_dx : ℚ) : List ℚ := linspace 0 max_dx n_x

/-- `get_closest_state_idx` (lines 122-153).  The configuration
(`n_x`, `max_dx`) fixes the `state_discretization` grids built by
`initialize_mdp_data`.  Faithful to the source's order of checks: the
absent-observation check (line 139) precedes both the obstacle-type lookup
(line 143, `KeyError` modelled as `none`) and the terminal override
(the `(not isFail)*(...)` factor on line 153). -/
def get_closest_state_idx (n_x : ℕ) (max_dx : ℚ) (state : Option DinoState)
    (isFail : Bool) : Option ℕ :=
  let dx_s := dx_grid n_x max_dx
  let dy_pter_s := PTERODACTYL_HEIGHTS
  match state with
  | none => some 1
  | some st =>
    match OBSTACLE_TYPES st.type with
    | none => none
    | some obs_type =>
      let j := if st.type = "PTERODACTYL" then argminAbs st.config dy_pter_s
               else argminAbs st.config dn_cactus_s
      let k := argminAbs st.dx dx_s
      some (if isFail then 0
            else obs_type * dy_pter_s.length * dx_s.length + j * dx_s.length + k + 2)

/-- `get_reward` (lines 53-71): −1000 on a crash, +1 otherwise. -/
def get_reward (isCrashed : Bool) : ℚ := if isCrashed then -1000 else 1

/-- The `mdp_data` dictionary (lines 182-190), with the numpy arrays of
shapes `(n,3,n)`, `(n,2)` and `(n,)` embedded as functions into ℚ.
`n` is `num_states n_x` when built by `initialize_mdp_data`; the array
manipulations themselves are generic in the first dimension, so the model
is parametrised by `n`.  The `state_discretization` grids are carried
separately (`dx_grid`, `dn_cactus_s`, `PTERODACTYL_HEIGHTS`). -/
structure MdpData (n : ℕ) where
  transition_counts : Fin n → Fin 3 → Fin n → ℚ
  transition_probs : Fin n → Fin 3 → Fin n → ℚ
  reward_counts : Fin n → ℚ × ℚ
  reward : Fin n → ℚ
  value : Fin n → ℚ

/-- `initialize_mdp_data` (lines 155-190), array part: counts, rewards and
value start at 0, transition probabilities uniform at `1/num_states`. -/
def initialize_mdp_data (n : ℕ) : MdpData n where
  transition_counts := fun _ _ _ => 0
  transition_probs := fun _ _ _ => 1 / n
  reward_counts := fun _ => (0, 0)
  reward := fun _ => 0
  value := fun _ => 0

/-- `update_mdp_counts` (lines 207-227), index-level core (lines 225-227):
the discretization of the raw previous/new states to the indices `s` and
`new_s` (lines 221-222) is `get_closest_state_idx`, embedded above; this
function performs the three in-place increments on the counts given those
indices. -/
def update_mdp_counts {n : ℕ} (d : MdpData n) (s : Fin n) (action : Fin 3)
    (new_s : Fin n) (reward : ℚ) : MdpData n :=
  { d with
    transition_counts := fun s1 a1 s2 =>
      if s1 = s ∧ a1 = action ∧ s2 = new_s
      then d.transition_counts s1 a1 s2 + 1
      else d.transition_counts s1 a1 s2
    reward_counts := fun s2 =>
      if s2 = new_s
      then ((d.reward_counts s2).1 + reward, (d.reward_counts s2).2 + 1)
      else d.reward_counts s2 }

/-- The model-refit half of `update_mdp_parameters` (lines 237-245):
every `(s,a)` row of `transition_probs` whose counts have positive total is
replaced by counts normalised by that total, other rows keep their previous
value; every state with positive reward-visit count gets the mean observed
reward, other states keep their previous reward.  Counts are untouched.
(The remainder of `update_mdp_parameters`, lines 248-263, is the value
iteration loop, embedded below as `vi_loop`; it writes only `value`.) -/
def update_mdp_parameters_refit {n : ℕ} (d : MdpData n) : MdpData n :=
  { d with
    transition_probs := fun s a s2 =>
      let total := ∑ t, d.transition_counts s a t
      if 0 < total then d.transition_counts s a s2 / total
      else d.transition_probs s a s2
    reward := fun s =>
      if 0 < (d.reward_counts s).2
      then (d.reward_counts s).1 / (d.reward_counts s).2
      else d.reward s }

/-- `row.dot(value)` for a transition-probability row. -/
def dotQ {n : ℕ} (p v : Fin n → ℚ) : ℚ := ∑ t, p t * v t

/-- One Bellman sweep of the value-iteration loop (lines 250-254): the
backup maximises over actions 0 (`value_nojump`) and 1 (`value_jump`) only;
action 2 (DUCK) is not consulted, exactly as in the source. -/
def bellman_sweep {n : ℕ} (γ : ℚ) (P : Fin n → Fin 3 → Fin n → ℚ)
    (r : Fin n → ℚ) (v : Fin n → ℚ) : Fin n → ℚ :=
  fun s => r s + γ * max (dotQ (fun t => P s 0 t) v) (dotQ (fun t => P s 1 t) v)

/-- `np.max(np.abs(new_value - value))` (line 257), as a fold; the entries
are absolute values, so the fold with initial accumulator 0 agrees with
numpy's max on every non-empty state space. -/
def maxAbsDiff {n : ℕ} (v w : Fin n → ℚ) : ℚ :=
  (List.ofFn (fun s => |v s - w s|)).foldr max 0

/-- The value-iteration loop of `update_mdp_parameters` (lines 248-263):
sweep, measure `max_s |new - old|`, commit the new vector, stop as soon as
the measure drops below `tolerance`.  The source loop is unbounded
(`while True`); the embedding carries a fuel argument and returns `none`
when the fuel runs out, so termination of the source loop is the statement
that some fuel returns `some`. -/
def vi_loop {n : ℕ} (γ tolerance : ℚ) (P : Fin n → Fin 3 → Fin n → ℚ)
    (r : Fin n → ℚ) : ℕ → (Fin n → ℚ) → Option (Fin n → ℚ)
  | 0, _ => none
  | fuel + 1, v =>
      let new_value := bellman_sweep γ P r v
      if maxAbsDiff new_value v < tolerance then some new_value
      else vi_loop γ tolerance P r fuel new_value

/-- `best_action` (lines 99-120), index-level core: the source first maps
the raw state through `get_closest_state_idx(state)` (line 110, embedded
above); given the resulting index `s`, the action is the Python expression
`(score_jump > score_nothing and score_jump >= score_duck)*1 +
 (score_duck > score_nothing and score_duck > score_jump)*2` (line 118). -/
def best_action {n : ℕ} (d : MdpData n) (s : Fin n) : ℕ :=
  let score_nothing := dotQ (fun t => d.transition_probs s 0 t) d.value
  let score_jump := dotQ (fun t => d.transition_probs s 1 t) d.value
  let score_duck := dotQ (fun t => d.transition_probs s 2 t) d.value
  (if score_jump > score_nothing ∧ score_jump ≥ score_duck then 1 else 0) * 1
    + (if score_duck > score_nothing ∧ score_duck > score_jump then 2 else 0)

/-- The `self.eps += 0.01` update performed by `reset` (line 80). -/
def reset_eps (eps : ℚ) : ℚ := eps + 1 / 100

/-- Epsilon after `N` episode resets: `eps` starts at 1.0 (line 41) and
each `reset` applies `reset_eps`; nothing else writes it. -/
def epsAfter (N : ℕ) : ℚ := reset_eps^[N] 1

/-- The branch test of `choose_action` (line 88): the greedy branch is
taken when the uniform draw `r ∈ [0,1)` satisfies `r < eps`. -/
def greedy_branch_taken (eps r : ℚ) : Bool := r < eps

/-- One recorded event of the agent's lifetime, as far as the MDP model is
concerned: a step records a transition (`update_mdp_counts`), an episode
boundary refits the model (`update_mdp_parameters`; its value-iteration
tail writes only `value`). -/
inductive AgentOp (n : ℕ)
  | record (s : Fin n) (a : Fin 3) (new_s : Fin n) (r : ℚ)
  | refit

/-- Replay a sequence of agent events on a model, oldest first. -/
def applyOps {n : ℕ} : List (AgentOp n) → MdpData n → MdpData n
  | [], d => d
  | AgentOp.record s a s2 r :: rest, d =>
      applyOps rest (update_mdp_counts d s a s2 r)
  | AgentOp.refit :: rest, d => applyOps rest (update_mdp_parameters_refit d)

/-! ## Theorems -/

/-- Claim C1, counterexample: the claim says `discretize(obs, isTerminal=true)`
returns 0 for every observation, present or absent; but for an absent
observation the source returns 1 even when terminal, because the
absent-observation check (line 139) runs before the terminal override
(line 153).  Concrete input: configuration `n_x = 10`, `max_dx = 100`,
absent observation, `isFail = true`. -/
theorem terminal_override_counterexample :
    get_closest_state_idx 10 100 none true = some 1 ∧
    get_closest_state_idx 10 100 none true ≠ some 0 :=
  ⟨rfl, by decide⟩

/-- Claim C1, amended: for every present observation with a recognized
obstacle type and every configuration, `discretize(obs, isTerminal=true)`
returns the terminal index 0; an absent observation instead returns 1
regardless of the terminal flag. -/
theorem terminal_override_amended (n_x : ℕ) (max_dx : ℚ) (st : DinoState)
    (o : ℕ) (b : Bool) (h : OBSTACLE_TYPES st.type = some o) :
    get_closest_state_idx n_x max_dx (some st) true = some 0 ∧
    get_closest_state_idx n_x max_dx none b = some 1 := by
  refine ⟨?_, rfl⟩
  simp [get_closest_state_idx, h]

/-- Witness for `terminal_override_amended` at a concrete pterodactyl
observation with `n_x = 5`, `max_dx = 100`. -/
theorem terminal_override_amended_witness :
    get_closest_state_idx 5 100 (some ⟨"PTERODACTYL", 75, 10⟩) true = some 0 ∧
    get_closest_state_idx 5 100 none false = some 1 :=
  terminal_override_amended 5 100 ⟨"PTERODACTYL", 75, 10⟩ 2 false (by decide)

/-- Claim C10: for every present observation whose obstacle type is none of
the three recognized keys of `OBSTACLE_TYPES`, discretization fails fast
(the dictionary lookup on line 143 raises `KeyError`, modelled as `none`)
instead of returning any index, whatever the terminal flag. -/
theorem unrecognized_type_fails (n_x : ℕ) (max_dx : ℚ) (st : DinoState)
    (b : Bool) (h1 : st.type ≠ "CACTUS_SMALL") (h2 : st.type ≠ "CACTUS_LARGE")
    (h3 : st.type ≠ "PTERODACTYL") :
    get_closest_state_idx n_x max_dx (some st) b = none := by
  have h : OBSTACLE_TYPES st.type = none := by
    simp [OBSTACLE_TYPES, h1, h2, h3]
  simp [get_closest_state_idx, h]

/-- Witness for `unrecognized_type_fails` on the obstacle type `"BIRD"`. -/
theorem unrecognized_type_fails_witness :
    get_closest_state_idx 10 100 (some ⟨"BIRD", 1, 0⟩) false = none :=
  unrecognized_type_fails 10 100 ⟨"BIRD", 1, 0⟩ false (by decide) (by decide)
    (by decide)

/-- Claim C7: `best_action` returns JUMP (1) iff `Q_jump > Q_none` and
`Q_jump ≥ Q_duck`; otherwise DUCK (2) iff `Q_duck > Q_none` and
`Q_duck > Q_jump`; otherwise NONE (0); and in the all-equal tie it returns
NONE.  The Q-scores are the dot products of the transition-probability rows
of the discretized state with `value` (lines 113-118). -/
theorem best_action_spec {n : ℕ} (d : MdpData n) (s : Fin n) :
    best_action d s =
      (if dotQ (fun t => d.transition_probs s 1 t) d.value >
            dotQ (fun t => d.transition_probs s 0 t) d.value ∧
          dotQ (fun t => d.transition_probs s 1 t) d.value ≥
            dotQ (fun t => d.transition_probs s 2 t) d.value
       then 1
       else if dotQ (fun t => d.transition_probs s 2 t) d.value >
            dotQ (fun t => d.transition_probs s 0 t) d.value ∧
          dotQ (fun t => d.transition_probs s 2 t) d.value >
            dotQ (fun t => d.transition_probs s 1 t) d.value
       then 2 else 0) ∧
    (dotQ (fun t => d.transition_probs s 0 t) d.value =
        dotQ (fun t => d.transition_probs s 1 t) d.value →
     dotQ (fun t => d.transition_probs s 1 t) d.value =
        dotQ (fun t => d.transition_probs s 2 t) d.value →
     best_action d s = 0) := by
  constructor
  · by_cases hA : dotQ (fun t => d.transition_probs s 1 t) d.value >
          dotQ (fun t => d.transition_probs s 0 t) d.value ∧
        dotQ (fun t => d.transition_probs s 1 t) d.value ≥
          dotQ (fun t => d.transition_probs s 2 t) d.value
    · have hB : ¬ (dotQ (fun t => d.transition_probs s 2 t) d.value >
            dotQ (fun t => d.transition_probs s 0 t) d.value ∧
          dotQ (fun t => d.transition_probs s 2 t) d.value >
            dotQ (fun t => d.transition_probs s 1 t) d.value) :=
        fun hB => absurd hB.2 (not_lt.mpr hA.2)
      simp [best_action, hA, hB]
    · by_cases hB : dotQ (fun t => d.transition_probs s 2 t) d.value >
            dotQ (fun t => d.transition_probs s 0 t) d.value ∧
          dotQ (fun t => d.transition_probs s 2 t) d.value >
            dotQ (fun t => d.transition_probs s 1 t) d.value
      · simp [best_action, hA, hB]
      · simp [best_action, hA, hB]
  · intro h01 h12
    have hA : ¬ (dotQ (fun t => d.transition_probs s 1 t) d.value >
          dotQ (fun t => d.transition_probs s 0 t) d.value ∧
        dotQ (fun t => d.transition_probs s 1 t) d.value ≥
          dotQ (fun t => d.transition_probs s 2 t) d.value) := by
      rw [← h01]
      exact fun h => lt_irrefl _ h.1
    have hB : ¬ (dotQ (fun t => d.transition_probs s 2 t) d.value >
          dotQ (fun t => d.transition_probs s 0 t) d.value ∧
        dotQ (fun t => d.transition_probs s 2 t) d.value >
          dotQ (fun t => d.transition_probs s 1 t) d.value) := by
      rw [← h12]
      exact fun h => lt_irrefl _ h.2
    simp [best_action, hA, hB]

/-- Witness for `best_action_spec`: the freshly initialized 3-state model
has all Q-scores equal, and `best_action` returns NONE. -/
theorem best_action_spec_witness : best_action (initialize_mdp_data 3) 1 = 0 :=
  (best_action_spec (initialize_mdp_data 3) 1).2
    (by simp [dotQ, initialize_mdp_data])
    (by simp [dotQ, initialize_mdp_data])

/-- Claim C5: the refit half of `update_mdp_parameters` leaves
`transition_counts` and `reward_counts` untouched; replaces each `(s,a)`
row of `transition_probs` with positive total count by the normalized
counts, leaving zero-total rows at their prior value; replaces the reward
of each state with positive visit count by the mean accumulated reward,
leaving never-visited states at their prior value.  Moreover, in the
3-state single-transition scenario (record `(s=1, a=JUMP, s'=2, r=1)` once,
then refit), row `(1, JUMP)` becomes a point mass on state 2, rows
`(1, NONE)` and `(1, DUCK)` stay uniform, and `reward[2] = 1` exactly. -/
theorem refit_postcondition {n : ℕ} (d : MdpData n) :
    (update_mdp_parameters_refit d).transition_counts = d.transition_counts ∧
    (update_mdp_parameters_refit d).reward_counts = d.reward_counts ∧
    (∀ s a, 0 < ∑ t, d.transition_counts s a t → ∀ s2,
        (update_mdp_parameters_refit d).transition_probs s a s2 =
          d.transition_counts s a s2 / ∑ t, d.transition_counts s a t) ∧
    (∀ s a, ¬ 0 < ∑ t, d.transition_counts s a t → ∀ s2,
        (update_mdp_parameters_refit d).transition_probs s a s2 =
          d.transition_probs s a s2) ∧
    (∀ s, 0 < (d.reward_counts s).2 →
        (update_mdp_parameters_refit d).reward s =
          (d.reward_counts s).1 / (d.reward_counts s).2) ∧
    (∀ s, ¬ 0 < (d.reward_counts s).2 →
        (update_mdp_parameters_refit d).reward s = d.reward s) ∧
    (∀ t : Fin 3,
        (update_mdp_parameters_refit
            (update_mdp_counts (initialize_mdp_data 3) 1 1 2 1)).transition_probs
            1 1 t = if t = 2 then 1 else 0) ∧
    (∀ t : Fin 3,
        (update_mdp_parameters_refit
            (update_mdp_counts (initialize_mdp_data 3) 1 1 2 1)).transition_probs
            1 0 t = 1 / 3 ∧
        (update_mdp_parameters_refit
            (update_mdp_counts (initialize_mdp_data 3) 1 1 2 1)).transition_probs
            1 2 t = 1 / 3) ∧
    (update_mdp_parameters_refit
        (update_mdp_counts (initialize_mdp_data 3) 1 1 2 1)).reward 2 = 1 := by
  refine ⟨rfl, rfl, ?_, ?_, ?_, ?_, ?_, ?_, ?_⟩
  · intro s a h s2
    simp only [update_mdp_parameters_refit, if_pos h]
  · intro s a h s2
    simp only [update_mdp_parameters_refit, if_neg h]
  · intro s h
    simp only [update_mdp_parameters_refit, if_pos h]
  · intro s h
    simp only [update_mdp_parameters_refit, if_neg h]
  · intro t
    fin_cases t <;>
      · simp only [update_mdp_parameters_refit, update_mdp_counts,
          initialize_mdp_data, Fin.sum_univ_three]
        simp
  · intro t
    fin_cases t <;>
      · simp only [update_mdp_parameters_refit, update_mdp_counts,
          initialize_mdp_data, Fin.sum_univ_three]
        simp
  · simp only [update_mdp_parameters_refit, update_mdp_counts,
      initialize_mdp_data]
    simp

/-- Witness for `refit_postcondition`: the positive-visit reward update is
exercised on the single-transition scenario model. -/
theorem refit_postcondition_witness :
    (update_mdp_parameters_refit
        (update_mdp_counts (initialize_mdp_data 3) 1 1 2 1)).reward 2 =
      ((update_mdp_counts (initialize_mdp_data 3) 1 1 2 1).reward_counts 2).1 /
        ((update_mdp_counts (initialize_mdp_data 3) 1 1 2 1).reward_counts 2).2 :=
  (refit_postcondition
      (update_mdp_counts (initialize_mdp_data 3) 1 1 2 1)).2.2.2.2.1 2
    (by simp [update_mdp_counts, initialize_mdp_data])

/-- The invariant carried by the MDP model across the agent's lifetime:
transition counts are non-negative and every `(s,a)` row of
`transition_probs` sums to 1. -/
def ModelInv {n : ℕ} (d : MdpData n) : Prop :=
  (∀ s a t, 0 ≤ d.transition_counts s a t) ∧
  (∀ s a, ∑ t, d.transition_probs s a t = 1)

lemma modelInv_init {n : ℕ} (hn : 0 < n) : ModelInv (initialize_mdp_data n) := by
  constructor
  · intro s a t
    exact le_refl 0
  · intro s a
    have hne : ((n : ℚ)) ≠ 0 := Nat.cast_ne_zero.mpr (Nat.pos_iff_ne_zero.mp hn)
    simp [initialize_mdp_data, Finset.sum_const, Finset.card_univ]
    field_simp

lemma modelInv_record {n : ℕ} {d : MdpData n} (h : ModelInv d) (s : Fin n)
    (a : Fin 3) (s2 : Fin n) (r : ℚ) :
    ModelInv (update_mdp_counts d s a s2 r) := by
  obtain ⟨hc, hp⟩ := h
  constructor
  · intro s1 a1 t
    simp only [update_mdp_counts]
    split
    · have := hc s1 a1 t
      linarith
    · exact hc s1 a1 t
  · intro s1 a1
    exact hp s1 a1

lemma modelInv_refit {n : ℕ} {d : MdpData n} (h : ModelInv d) :
    ModelInv (update_mdp_parameters_refit d) := by
  obtain ⟨hc, hp⟩ := h
  constructor
  · intro s a t
    exact hc s a t
  · intro s a
    simp only [update_mdp_parameters_refit]
    by_cases htot : 0 < ∑ t, d.transition_counts s a t
    · simp only [if_pos htot]
      rw [← Finset.sum_div]
      exact div_self (ne_of_gt htot)
    · simp only [if_neg htot]
      exact hp s a

lemma modelInv_applyOps {n : ℕ} (ops : List (AgentOp n)) {d : MdpData n}
    (h : ModelInv d) : ModelInv (applyOps ops d) := by
  induction ops generalizing d with
  | nil => exact h
  | cons op rest ih =>
    cases op with
    | record s a s2 r => exact ih (modelInv_record h s a s2 r)
    | refit => exact ih (modelInv_refit h)

/-- Claim C4: starting from the freshly initialized model, after any finite
sequence of transition recordings and refits, every `(s,a)` row of
`transition_probs` sums to 1 (exactly, over ℚ): initialization makes each
row uniform at `1/num_states`, recording leaves probabilities unchanged,
and a refit replaces a row only by counts divided by their positive total. -/
theorem row_stochastic_invariant {n : ℕ} (hn : 0 < n) (ops : List (AgentOp n))
    (s : Fin n) (a : Fin 3) :
    ∑ t, (applyOps ops (initialize_mdp_data n)).transition_probs s a t = 1 :=
  (modelInv_applyOps ops (modelInv_init hn)).2 s a

/-- Witness for `row_stochastic_invariant`: a 3-state model after one
recorded transition and one refit; the visited row `(1, JUMP)` sums to 1. -/
theorem row_stochastic_invariant_witness :
    ∑ t, (applyOps [AgentOp.record 1 1 2 1, AgentOp.refit]
        (initialize_mdp_data 3)).transition_probs 1 1 t = 1 :=
  row_stochastic_invariant (by norm_num) [AgentOp.record 1 1 2 1, AgentOp.refit]
    1 1

lemma argminAbs_cons_cons (x a b : ℚ) (rest : List ℚ) :
    argminAbs x (a :: b :: rest) =
      if |(b :: rest).getD (argminAbs x (b :: rest)) 0 - x| < |a - x|
      then argminAbs x (b :: rest) + 1 else 0 := rfl

lemma argminAbs_lt_length (x : ℚ) (xs : List ℚ) (h : xs ≠ []) :
    argminAbs x xs < xs.length := by
  induction xs with
  | nil => exact absurd rfl h
  | cons a tail ih =>
    cases tail with
    | nil => simp [argminAbs]
    | cons b rest =>
      rw [argminAbs_cons_cons]
      split
      · exact Nat.succ_lt_succ (ih (by simp))
      · simp

lemma argminAbs_le (x : ℚ) (xs : List ℚ) (i : ℕ) (hi : i < xs.length) :
    |xs.getD (argminAbs x xs) 0 - x| ≤ |xs.getD i 0 - x| := by
  induction xs generalizing i with
  | nil => simp at hi
  | cons a tail ih =>
    cases tail with
    | nil =>
      cases i with
      | zero => simp [argminAbs]
      | succ i => simp at hi
    | cons b rest =>
      rw [argminAbs_cons_cons]
      split
      · rename_i hc
        cases i with
        | zero =>
          rw [List.getD_cons_succ, List.getD_cons_zero]
          exact le_of_lt hc
        | succ i =>
          rw [List.getD_cons_succ, List.getD_cons_succ]
          exact ih i (Nat.lt_of_succ_lt_succ hi)
      · rename_i hc
        cases i with
        | zero => simp
        | succ i =>
          rw [List.getD_cons_zero, List.getD_cons_succ]
          exact le_trans (not_lt.mp hc) (ih i (Nat.lt_of_succ_lt_succ hi))

lemma argminAbs_first (x : ℚ) (xs : List ℚ) (i : ℕ)
    (hi : i < argminAbs x xs) :
    |xs.getD (argminAbs x xs) 0 - x| < |xs.getD i 0 - x| := by
  induction xs generalizing i with
  | nil => simp [argminAbs] at hi
  | cons a tail ih =>
    cases tail with
    | nil => simp [argminAbs] at hi
    | cons b rest =>
      rw [argminAbs_cons_cons] at hi ⊢
      split at hi
      · rename_i hc
        rw [if_pos hc]
        cases i with
        | zero =>
          rw [List.getD_cons_succ, List.getD_cons_zero]
          exact hc
        | succ i =>
          rw [List.getD_cons_succ, List.getD_cons_succ]
          exact ih i (Nat.lt_of_succ_lt_succ hi)
      · simp at hi

/-- `j` is the index of the first element of `xs` at minimal absolute
distance from `x` (nearest-neighbor bucket selection, ties broken by the
lowest index). -/
def isFirstNearest (x : ℚ) (xs : List ℚ) (j : ℕ) : Prop :=
  j < xs.length ∧
  (∀ i, i < xs.length → |xs.getD j 0 - x| ≤ |xs.getD i 0 - x|) ∧
  (∀ i, i < j → |xs.getD j 0 - x| < |xs.getD i 0 - x|)

lemma argminAbs_isFirstNearest (x : ℚ) (xs : List ℚ) (h : xs ≠ []) :
    isFirstNearest x xs (argminAbs x xs) :=
  ⟨argminAbs_lt_length x xs h, fun i hi => argminAbs_le x xs i hi,
    fun i hi => argminAbs_first x xs i hi⟩

lemma linspace_length (lo hi : ℚ) (n : ℕ) : (linspace lo hi n).length = n := by
  unfold linspace
  split
  · exact List.length_replicate n lo
  · rw [List.length_map, List.length_range]

lemma dx_grid_length (n_x : ℕ) (max_dx : ℚ) :
    (dx_grid n_x max_dx).length = n_x := linspace_length 0 max_dx n_x

lemma obstacle_type_lt (t : String) (o : ℕ)
    (h : OBSTACLE_TYPES t = some o) : o < 3 := by
  unfold OBSTACLE_TYPES at h
  split_ifs at h <;> simp_all <;> omega

lemma num_states_eq (n_x : ℕ) : num_states n_x = 9 * n_x + 2 := by
  norm_num [num_states, MAX_CONSECUTIVE_OBS, PTERODACTYL_HEIGHTS]

/-- Claim C6: discretization is total and in range.  For the absent
observation it returns 1; for a present recognized observation with the
terminal flag it returns 0; for a present recognized non-terminal
observation it returns exactly the linearization
`obstacleType * numConfigBuckets * numDistanceBuckets + configBucket *
numDistanceBuckets + distanceBucket + 2` where both buckets are chosen
nearest-neighbor with ties to the lowest index; in every case the index is
below `num_states`.  Determinism is definitional: the embedding is a pure
function of the observation and configuration. -/
theorem discretize_total_range (n_x : ℕ) (max_dx : ℚ) (hn : 0 < n_x) :
    (∀ b : Bool,
      get_closest_state_idx n_x max_dx none b = some 1 ∧ 1 < num_states n_x) ∧
    (∀ st : DinoState, ∀ o : ℕ, OBSTACLE_TYPES st.type = some o →
      get_closest_state_idx n_x max_dx (some st) true = some 0 ∧
      0 < num_states n_x) ∧
    (∀ st : DinoState, ∀ o : ℕ, OBSTACLE_TYPES st.type = some o →
      ∃ j k : ℕ,
        isFirstNearest st.config
          (if st.type = "PTERODACTYL" then PTERODACTYL_HEIGHTS else dn_cactus_s)
          j ∧
        isFirstNearest st.dx (dx_grid n_x max_dx) k ∧
        get_closest_state_idx n_x max_dx (some st) false =
          some (o * 3 * n_x + j * n_x + k + 2) ∧
        o * 3 * n_x + j * n_x + k + 2 < num_states n_x) := by
  have hns := num_states_eq n_x
  refine ⟨fun b => ⟨rfl, by omega⟩, fun st o h => ⟨?_, by omega⟩, fun st o h => ?_⟩
  · simp [get_closest_state_idx, h]
  · have hdx : dx_grid n_x max_dx ≠ [] := by
      rw [← List.length_pos, dx_grid_length]
      exact hn
    have hk := argminAbs_isFirstNearest st.dx (dx_grid n_x max_dx) hdx
    have ho : o ≤ 2 := Nat.lt_succ_iff.mp (obstacle_type_lt st.type o h)
    by_cases hp : st.type = "PTERODACTYL"
    · refine ⟨argminAbs st.config PTERODACTYL_HEIGHTS,
        argminAbs st.dx (dx_grid n_x max_dx), ?_, hk, ?_, ?_⟩
      · rw [if_pos hp]
        exact argminAbs_isFirstNearest st.config PTERODACTYL_HEIGHTS (by simp [PTERODACTYL_HEIGHTS])
      · rw [hp] at h
        simp only [get_closest_state_idx, h, hp, if_true, Bool.false_eq_true,
          if_false, dx_grid]
        rw [linspace_length]
        norm_num [PTERODACTYL_HEIGHTS]
      · have hj : argminAbs st.config PTERODACTYL_HEIGHTS < 3 :=
          argminAbs_lt_length st.config PTERODACTYL_HEIGHTS (by simp [PTERODACTYL_HEIGHTS])
        have h1 : o * 3 * n_x ≤ 6 * n_x :=
          Nat.mul_le_mul_right n_x (by omega)
        have h2 : argminAbs st.config PTERODACTYL_HEIGHTS * n_x ≤ 2 * n_x :=
          Nat.mul_le_mul_right n_x (by omega)
        have hk2 := hk.1
        rw [dx_grid_length] at hk2
        omega
    · refine ⟨argminAbs st.config dn_cactus_s,
        argminAbs st.dx (dx_grid n_x max_dx), ?_, hk, ?_, ?_⟩
      · rw [if_neg hp]
        exact argminAbs_isFirstNearest st.config dn_cactus_s (by simp [dn_cactus_s])
      · simp only [get_closest_state_idx, h, hp, if_false, Bool.false_eq_true,
          dx_grid]
        rw [linspace_length]
        norm_num [PTERODACTYL_HEIGHTS]
      · have hj : argminAbs st.config dn_cactus_s < 3 :=
          argminAbs_lt_length st.config dn_cactus_s (by simp [dn_cactus_s])
        have h1 : o * 3 * n_x ≤ 6 * n_x :=
          Nat.mul_le_mul_right n_x (by omega)
        have h2 : argminAbs st.config dn_cactus_s * n_x ≤ 2 * n_x :=
          Nat.mul_le_mul_right n_x (by omega)
        have hk2 := hk.1
        rw [dx_grid_length] at hk2
        omega

/-- Witness for `discretize_total_range`: a large-cactus observation with
`config = 2`, `dx = 30` under the configuration `n_x = 2`, `max_dx = 100`. -/
theorem discretize_total_range_witness :
    ∃ j k : ℕ,
      isFirstNearest 2
        (if "CACTUS_LARGE" = "PTERODACTYL" then PTERODACTYL_HEIGHTS
         else dn_cactus_s) j ∧
      isFirstNearest 30 (dx_grid 2 100) k ∧
      get_closest_state_idx 2 100 (some ⟨"CACTUS_LARGE", 2, 30⟩) false =
        some (1 * 3 * 2 + j * 2 + k + 2) ∧
      1 * 3 * 2 + j * 2 + k + 2 < num_states 2 :=
  (discretize_total_range 2 100 (by norm_num)).2.2 ⟨"CACTUS_LARGE", 2, 30⟩ 1 rfl

lemma foldr_max_le {l : List ℚ} {b c : ℚ} (hb : b ≤ c) (h : ∀ a ∈ l, a ≤ c) :
    l.foldr max b ≤ c := by
  induction l with
  | nil => exact hb
  | cons a t ih =>
    exact max_le (h a (List.mem_cons_self a t))
      (ih fun x hx => h x (List.mem_cons_of_mem a hx))

lemma le_foldr_max {l : List ℚ} {b a : ℚ} (h : a ∈ l) : a ≤ l.foldr max b := by
  induction l with
  | nil => cases h
  | cons c t ih =>
    rcases List.mem_cons.mp h with rfl | hx
    · exact le_max_left _ _
    · exact le_trans (ih hx) (le_max_right _ _)

lemma init_le_foldr_max (l : List ℚ) (b : ℚ) : b ≤ l.foldr max b := by
  induction l with
  | nil => exact le_refl b
  | cons c t ih => exact le_trans ih (le_max_right _ _)

lemma maxAbsDiff_nonneg {n : ℕ} (v w : Fin n → ℚ) : 0 ≤ maxAbsDiff v w :=
  init_le_foldr_max _ 0

lemma abs_sub_le_maxAbsDiff {n : ℕ} (v w : Fin n → ℚ) (s : Fin n) :
    |v s - w s| ≤ maxAbsDiff v w :=
  le_foldr_max ((List.mem_ofFn _ _).mpr ⟨s, rfl⟩)

lemma maxAbsDiff_le {n : ℕ} {v w : Fin n → ℚ} {c : ℚ} (hc : 0 ≤ c)
    (h : ∀ s, |v s - w s| ≤ c) : maxAbsDiff v w ≤ c := by
  apply foldr_max_le hc
  intro a ha
  rcases (List.mem_ofFn _ _).mp ha with ⟨s, rfl⟩
  exact h s

lemma maxAbsDiff_comm {n : ℕ} (v w : Fin n → ℚ) :
    maxAbsDiff v w = maxAbsDiff w v := by
  simp only [maxAbsDiff, abs_sub_comm]

lemma abs_dotQ_sub_le {n : ℕ} (p v w : Fin n → ℚ) (hp : ∀ t, 0 ≤ p t)
    (hs : ∑ t, p t = 1) : |dotQ p v - dotQ p w| ≤ maxAbsDiff v w := by
  have h1 : dotQ p v - dotQ p w = ∑ t, p t * (v t - w t) := by
    simp only [dotQ, mul_sub]
    rw [Finset.sum_sub_distrib]
  rw [h1]
  calc |∑ t, p t * (v t - w t)| ≤ ∑ t, |p t * (v t - w t)| :=
        Finset.abs_sum_le_sum_abs _ _
    _ = ∑ t, p t * |v t - w t| := by
        refine Finset.sum_congr rfl fun t _ => ?_
        rw [abs_mul, abs_of_nonneg (hp t)]
    _ ≤ ∑ t, p t * maxAbsDiff v w :=
        Finset.sum_le_sum fun t _ =>
          mul_le_mul_of_nonneg_left (abs_sub_le_maxAbsDiff v w t) (hp t)
    _ = maxAbsDiff v w := by rw [← Finset.sum_mul, hs, one_mul]

/-- One Bellman sweep is a `γ`-contraction in the sup norm when the rows of
`P` used by the backup are non-negative and sum to 1. -/
lemma bellman_sweep_contract {n : ℕ} (γ : ℚ) (P : Fin n → Fin 3 → Fin n → ℚ)
    (r : Fin n → ℚ) (v w : Fin n → ℚ) (hγ : 0 ≤ γ)
    (hp : ∀ s a t, 0 ≤ P s a t) (hs : ∀ s a, ∑ t, P s a t = 1) :
    maxAbsDiff (bellman_sweep γ P r v) (bellman_sweep γ P r w) ≤
      γ * maxAbsDiff v w := by
  apply maxAbsDiff_le (mul_nonneg hγ (maxAbsDiff_nonneg v w))
  intro s
  have hd : bellman_sweep γ P r v s - bellman_sweep γ P r w s =
      γ * (max (dotQ (fun t => P s 0 t) v) (dotQ (fun t => P s 1 t) v) -
        max (dotQ (fun t => P s 0 t) w) (dotQ (fun t => P s 1 t) w)) := by
    simp only [bellman_sweep]
    ring
  rw [hd, abs_mul, abs_of_nonneg hγ]
  refine mul_le_mul_of_nonneg_left ?_ hγ
  calc |max (dotQ (fun t => P s 0 t) v) (dotQ (fun t => P s 1 t) v) -
        max (dotQ (fun t => P s 0 t) w) (dotQ (fun t => P s 1 t) w)| ≤
      max |dotQ (fun t => P s 0 t) v - dotQ (fun t => P s 0 t) w|
        |dotQ (fun t => P s 1 t) v - dotQ (fun t => P s 1 t) w| :=
        abs_max_sub_max_le_max _ _ _ _
    _ ≤ maxAbsDiff v w :=
        max_le (abs_dotQ_sub_le _ v w (fun t => hp s 0 t) (hs s 0))
          (abs_dotQ_sub_le _ v w (fun t => hp s 1 t) (hs s 1))

lemma iterate_sweep_diff_le {n : ℕ} (γ : ℚ) (P : Fin n → Fin 3 → Fin n → ℚ)
    (r : Fin n → ℚ) (v0 : Fin n → ℚ) (hγ : 0 ≤ γ)
    (hp : ∀ s a t, 0 ≤ P s a t) (hs : ∀ s a, ∑ t, P s a t = 1) (k : ℕ) :
    maxAbsDiff ((bellman_sweep γ P r)^[k + 1] v0)
        ((bellman_sweep γ P r)^[k] v0) ≤
      γ ^ k * maxAbsDiff (bellman_sweep γ P r v0) v0 := by
  induction k generalizing v0 with
  | zero => simp
  | succ k ih =>
    have h1 := ih (bellman_sweep γ P r v0)
    have h2 : maxAbsDiff (bellman_sweep γ P r (bellman_sweep γ P r v0))
        (bellman_sweep γ P r v0) ≤
        γ * maxAbsDiff (bellman_sweep γ P r v0) v0 :=
      bellman_sweep_contract γ P r _ _ hγ hp hs
    have h3 : (0 : ℚ) ≤ γ ^ k := pow_nonneg hγ k
    calc maxAbsDiff ((bellman_sweep γ P r)^[k + 1 + 1] v0)
          ((bellman_sweep γ P r)^[k + 1] v0) =
        maxAbsDiff ((bellman_sweep γ P r)^[k + 1] (bellman_sweep γ P r v0))
          ((bellman_sweep γ P r)^[k] (bellman_sweep γ P r v0)) := rfl
      _ ≤ γ ^ k * maxAbsDiff (bellman_sweep γ P r (bellman_sweep γ P r v0))
          (bellman_sweep γ P r v0) := h1
      _ ≤ γ ^ k * (γ * maxAbsDiff (bellman_sweep γ P r v0) v0) :=
          mul_le_mul_of_nonneg_left h2 h3
      _ = γ ^ (k + 1) * maxAbsDiff (bellman_sweep γ P r v0) v0 := by ring

/-- For `0 < γ < 1` the sweep-to-sweep sup distance eventually drops below
any positive tolerance. -/
lemma exists_sweep_diff_lt {n : ℕ} (γ tol : ℚ) (P : Fin n → Fin 3 → Fin n → ℚ)
    (r : Fin n → ℚ) (v0 : Fin n → ℚ) (hγ0 : 0 ≤ γ) (hγ1 : γ < 1)
    (htol : 0 < tol) (hp : ∀ s a t, 0 ≤ P s a t)
    (hs : ∀ s a, ∑ t, P s a t = 1) :
    ∃ k, maxAbsDiff ((bellman_sweep γ P r)^[k + 1] v0)
        ((bellman_sweep γ P r)^[k] v0) < tol := by
  rcases lt_or_le (maxAbsDiff (bellman_sweep γ P r v0) v0) tol with h | h
  · exact ⟨0, by simpa using h⟩
  · have hd0 : 0 < maxAbsDiff (bellman_sweep γ P r v0) v0 :=
      lt_of_lt_of_le htol h
    obtain ⟨m, hm⟩ := exists_pow_lt_of_lt_one (div_pos htol hd0) hγ1
    refine ⟨m, lt_of_le_of_lt (iterate_sweep_diff_le γ P r v0 hγ0 hp hs m) ?_⟩
    calc γ ^ m * maxAbsDiff (bellman_sweep γ P r v0) v0 <
        (tol / maxAbsDiff (bellman_sweep γ P r v0) v0) *
          maxAbsDiff (bellman_sweep γ P r v0) v0 :=
          mul_lt_mul_of_pos_right hm hd0
      _ = tol := div_mul_cancel₀ tol (ne_of_gt hd0)

lemma vi_loop_succ {n : ℕ} (γ tol : ℚ) (P : Fin n → Fin 3 → Fin n → ℚ)
    (r : Fin n → ℚ) (fuel : ℕ) (v : Fin n → ℚ) :
    vi_loop γ tol P r (fuel + 1) v =
      if maxAbsDiff (bellman_sweep γ P r v) v < tol
      then some (bellman_sweep γ P r v)
      else vi_loop γ tol P r fuel (bellman_sweep γ P r v) := rfl

lemma vi_loop_result {n : ℕ} (γ tol : ℚ) (P : Fin n → Fin 3 → Fin n → ℚ)
    (r : Fin n → ℚ) :
    ∀ (fuel : ℕ) (v w : Fin n → ℚ), vi_loop γ tol P r fuel v = some w →
      ∃ u, w = bellman_sweep γ P r u ∧ maxAbsDiff w u < tol := by
  intro fuel
  induction fuel with
  | zero =>
    intro v w h
    simp [vi_loop] at h
  | succ fuel ih =>
    intro v w h
    rw [vi_loop_succ] at h
    by_cases h0 : maxAbsDiff (bellman_sweep γ P r v) v < tol
    · rw [if_pos h0] at h
      obtain rfl := Option.some_injective _ h
      exact ⟨v, rfl, h0⟩
    · rw [if_neg h0] at h
      exact ih (bellman_sweep γ P r v) w h

lemma vi_loop_runs {n : ℕ} (γ tol : ℚ) (P : Fin n → Fin 3 → Fin n → ℚ)
    (r : Fin n → ℚ) :
    ∀ (fuel : ℕ) (v : Fin n → ℚ),
      (∃ k, k < fuel ∧ maxAbsDiff ((bellman_sweep γ P r)^[k + 1] v)
        ((bellman_sweep γ P r)^[k] v) < tol) →
      ∃ w, vi_loop γ tol P r fuel v = some w := by
  intro fuel
  induction fuel with
  | zero =>
    rintro v ⟨k, hk, _⟩
    omega
  | succ fuel ih =>
    rintro v ⟨k, hk, hcond⟩
    rw [vi_loop_succ]
    by_cases h0 : maxAbsDiff (bellman_sweep γ P r v) v < tol
    · exact ⟨_, if_pos h0⟩
    · rw [if_neg h0]
      apply ih
      cases k with
      | zero => exact absurd (by simpa using hcond) h0
      | succ k => exact ⟨k, by omega, hcond⟩

lemma vi_loop_stops_at_first {n : ℕ} (γ tol : ℚ)
    (P : Fin n → Fin 3 → Fin n → ℚ) (r : Fin n → ℚ) :
    ∀ (k : ℕ) (v : Fin n → ℚ),
      (∀ j, j < k → ¬ maxAbsDiff ((bellman_sweep γ P r)^[j + 1] v)
        ((bellman_sweep γ P r)^[j] v) < tol) →
      maxAbsDiff ((bellman_sweep γ P r)^[k + 1] v)
        ((bellman_sweep γ P r)^[k] v) < tol →
      vi_loop γ tol P r (k + 1) v = some ((bellman_sweep γ P r)^[k + 1] v) := by
  intro k
  induction k with
  | zero =>
    intro v _ hc
    rw [vi_loop_succ, if_pos (by simpa using hc)]
    rfl
  | succ k ih =>
    intro v hmin hc
    have h0 : ¬ maxAbsDiff (bellman_sweep γ P r v) v < tol := by
      have h := hmin 0 (Nat.succ_pos k)
      simpa using h
    rw [vi_loop_succ, if_neg h0]
    exact ih (bellman_sweep γ P r v) (fun j hj => hmin (j + 1) (by omega)) hc

/-- Claim C3: for every `γ ∈ (0,1)`, `tolerance > 0`, row-stochastic
non-negative `transition_probs`, reward vector and initial value vector,
the value-iteration loop of `update_mdp_parameters` terminates, and it
stops exactly at the first sweep whose `max_s |new - old|` falls below the
tolerance — there is no iteration cap, termination is purely by tolerance. -/
theorem value_iteration_terminates {n : ℕ} (γ tol : ℚ)
    (P : Fin n → Fin 3 → Fin n → ℚ) (r : Fin n → ℚ) (v0 : Fin n → ℚ)
    (hγ0 : 0 < γ) (hγ1 : γ < 1) (htol : 0 < tol)
    (hp : ∀ s a t, 0 ≤ P s a t) (hs : ∀ s a, ∑ t, P s a t = 1) :
    ∃ k : ℕ,
      (∀ j, j < k → ¬ maxAbsDiff ((bellman_sweep γ P r)^[j + 1] v0)
        ((bellman_sweep γ P r)^[j] v0) < tol) ∧
      maxAbsDiff ((bellman_sweep γ P r)^[k + 1] v0)
        ((bellman_sweep γ P r)^[k] v0) < tol ∧
      vi_loop γ tol P r (k + 1) v0 =
        some ((bellman_sweep γ P r)^[k + 1] v0) := by
  have hex := exists_sweep_diff_lt γ tol P r v0 (le_of_lt hγ0) hγ1 htol hp hs
  refine ⟨Nat.find hex, fun j hj => Nat.find_min hex hj, Nat.find_spec hex, ?_⟩
  exact vi_loop_stops_at_first γ tol P r (Nat.find hex) v0
    (fun j hj => Nat.find_min hex hj) (Nat.find_spec hex)

/-- Claim C2: under the same conditions, for every initial value vector the
loop converges: it returns a vector `w` that satisfies the two-action
Bellman fixed-point equation
`w[s] = reward[s] + γ * max(Q_none(s), Q_jump(s))` within the tolerance at
every state (DUCK's row is never consulted by the backup). -/
theorem value_iteration_fixed_point {n : ℕ} (γ tol : ℚ)
    (P : Fin n → Fin 3 → Fin n → ℚ) (r : Fin n → ℚ) (v0 : Fin n → ℚ)
    (hγ0 : 0 < γ) (hγ1 : γ < 1) (htol : 0 < tol)
    (hp : ∀ s a t, 0 ≤ P s a t) (hs : ∀ s a, ∑ t, P s a t = 1) :
    ∃ (fuel : ℕ) (w : Fin n → ℚ), vi_loop γ tol P r fuel v0 = some w ∧
      ∀ s, |w s - (r s + γ * max (dotQ (fun t => P s 0 t) w)
        (dotQ (fun t => P s 1 t) w))| < tol := by
  obtain ⟨k, hcond⟩ :=
    exists_sweep_diff_lt γ tol P r v0 (le_of_lt hγ0) hγ1 htol hp hs
  obtain ⟨w, hw⟩ :=
    vi_loop_runs γ tol P r (k + 1) v0 ⟨k, Nat.lt_succ_self k, hcond⟩
  obtain ⟨u, rfl, hdiff⟩ := vi_loop_result γ tol P r (k + 1) v0 w hw
  refine ⟨k + 1, bellman_sweep γ P r u, hw, fun s => ?_⟩
  have hgoal : |bellman_sweep γ P r u s -
      bellman_sweep γ P r (bellman_sweep γ P r u) s| < tol := by
    have h1 : |bellman_sweep γ P r u s -
        bellman_sweep γ P r (bellman_sweep γ P r u) s| ≤
        maxAbsDiff (bellman_sweep γ P r u)
          (bellman_sweep γ P r (bellman_sweep γ P r u)) :=
      abs_sub_le_maxAbsDiff _ _ s
    have h2 : maxAbsDiff (bellman_sweep γ P r u)
        (bellman_sweep γ P r (bellman_sweep γ P r u)) ≤
        γ * maxAbsDiff u (bellman_sweep γ P r u) :=
      bellman_sweep_contract γ P r u (bellman_sweep γ P r u)
        (le_of_lt hγ0) hp hs
    have h3 : γ * maxAbsDiff u (bellman_sweep γ P r u) < γ * tol := by
      rw [maxAbsDiff_comm]
      exact mul_lt_mul_of_pos_left hdiff hγ0
    have h4 : γ * tol < tol := by
      nlinarith
    linarith
  exact hgoal

/-- Witness for `value_iteration_terminates`: a one-state model with the
unique transition probability 1, zero rewards, `γ = 1/2`, `tolerance = 1`,
zero initial value. -/
theorem value_iteration_terminates_witness :
    ∃ k : ℕ,
      (∀ j, j < k → ¬ maxAbsDiff
        ((bellman_sweep (1 / 2) (fun _ _ _ => (1 : ℚ))
          (fun _ : Fin 1 => (0 : ℚ)))^[j + 1] (fun _ => 0))
        ((bellman_sweep (1 / 2) (fun _ _ _ => (1 : ℚ))
          (fun _ : Fin 1 => (0 : ℚ)))^[j] (fun _ => 0)) < 1) ∧
      maxAbsDiff
        ((bellman_sweep (1 / 2) (fun _ _ _ => (1 : ℚ))
          (fun _ : Fin 1 => (0 : ℚ)))^[k + 1] (fun _ => 0))
        ((bellman_sweep (1 / 2) (fun _ _ _ => (1 : ℚ))
          (fun _ : Fin 1 => (0 : ℚ)))^[k] (fun _ => 0)) < 1 ∧
      vi_loop (1 / 2) 1 (fun _ _ _ => (1 : ℚ)) (fun _ : Fin 1 => (0 : ℚ))
        (k + 1) (fun _ => 0) =
        some ((bellman_sweep (1 / 2) (fun _ _ _ => (1 : ℚ))
          (fun _ : Fin 1 => (0 : ℚ)))^[k + 1] (fun _ => 0)) :=
  value_iteration_terminates (1 / 2) 1 (fun _ _ _ => (1 : ℚ))
    (fun _ : Fin 1 => (0 : ℚ)) (fun _ => 0) (by norm_num) (by norm_num)
    (by norm_num) (fun s a t => by norm_num) (fun s a => by simp)

/-- Witness for `value_iteration_fixed_point`: a two-state model with
uniform transition probabilities, unit rewards, `γ = 1/3`,
`tolerance = 1/2`, zero initial value. -/
theorem value_iteration_fixed_point_witness :
    ∃ (fuel : ℕ) (w : Fin 2 → ℚ),
      vi_loop (1 / 3) (1 / 2) (fun _ _ _ => (1 / 2 : ℚ))
        (fun _ : Fin 2 => (1 : ℚ)) fuel (fun _ => 0) = some w ∧
      ∀ s, |w s - ((1 : ℚ) + (1 / 3) *
        max (dotQ (fun t => (1 / 2 : ℚ)) w)
          (dotQ (fun t => (1 / 2 : ℚ)) w))| < 1 / 2 :=
  value_iteration_fixed_point (1 / 3) (1 / 2) (fun _ _ _ => (1 / 2 : ℚ))
    (fun _ : Fin 2 => (1 : ℚ)) (fun _ => 0) (by norm_num) (by norm_num)
    (by norm_num) (fun s a t => by norm_num)
    (fun s a => by simp [Fin.sum_univ_two])

/-- Closed form for `epsAfter`. -/
lemma epsAfter_eq (N : ℕ) : epsAfter N = 1 + (1 / 100) * N := by
  induction N with
  | zero => simp [epsAfter]
  | succ k ih =>
    rw [epsAfter, Function.iterate_succ_apply', ← epsAfter, ih, reset_eps]
    push_cast
    ring

/-- Claim C8: after `N` episode resets, `eps` equals `1 + 0.01 * N` exactly
(starting at 1.0 and incremented by 0.01 per reset, uncapped), and once
`eps > 1`, the greedy branch of `choose_action` is taken for every draw
`r ∈ [0,1)`.  Floating-point arithmetic is modelled exactly over ℚ. -/
theorem eps_growth_spec (N : ℕ) (r : ℚ) (h0 : 0 ≤ r) (h1 : r < 1) :
    epsAfter N = 1 + (1 / 100) * N ∧
    (1 < epsAfter N → greedy_branch_taken (epsAfter N) r = true) := by
  refine ⟨epsAfter_eq N, fun hgt => ?_⟩
  simp only [greedy_branch_taken, decide_eq_true_eq]
  exact lt_trans h1 hgt

/-- Witness for `eps_growth_spec` at `N = 2`, `r = 1/2`. -/
theorem eps_growth_spec_witness :
    epsAfter 2 = 1 + (1 / 100) * (2 : ℕ) ∧
    (1 < epsAfter 2 → greedy_branch_taken (epsAfter 2) (1 / 2) = true) :=
  eps_growth_spec 2 (1 / 2) (by norm_num) (by norm_num)

/-- Claim C9: at every point of the agent's lifetime (`N` resets so far,
including `N = 0` before the first reset) `eps ≥ 1` holds, `eps` only ever
grows, and every draw `r ∈ [0,1)` satisfies `r < eps`, so `choose_action`
takes the greedy branch and the biased exploration branch (line 91) is
unreachable. -/
theorem eps_never_explores (N : ℕ) (r : ℚ) (h0 : 0 ≤ r) (h1 : r < 1) :
    1 ≤ epsAfter N ∧ epsAfter N < epsAfter (N + 1) ∧
    greedy_branch_taken (epsAfter N) r = true := by
  have hN := epsAfter_eq N
  have hone : (1 : ℚ) ≤ epsAfter N := by
    rw [hN]
    have : (0 : ℚ) ≤ (1 / 100) * N := by positivity
    linarith
  refine ⟨hone, ?_, ?_⟩
  · rw [hN, epsAfter_eq (N + 1)]
    push_cast
    linarith
  · simp only [greedy_branch_taken, decide_eq_true_eq]
    exact lt_of_lt_of_le h1 hone

/-- Witness for `eps_never_explores` at `N = 0`, `r = 99/100`: even before
any reset the greedy branch is forced. -/
theorem eps_never_explores_witness :
    1 ≤ epsAfter 0 ∧ epsAfter 0 < epsAfter (0 + 1) ∧
    greedy_branch_taken (epsAfter 0) (99 / 100) = true :=
  eps_never_explores 0 (99 / 100) (by norm_num) (by norm_num)

end DinoAgent
